import Mathlib

/-!
Verification development for the dialogue tooling of this repository.

The embedding covers three source units:
  * src/tools/dialogue_editor/models.py   -- the graph data model, mutation
    operations (remove_node, remove_character) and the validator;
  * src/tools/dialogue_editor/yaml_io.py  -- the YAML loader (parse) and
    saver (serialize) for the editor model;
  * src/tools/yaml_to_dialogic.py         -- the one-way lowering of a raw
    YAML document into a Dialogic timeline event list.

Modelling conventions:
  * Python dicts that act as ordered mappings become association lists
    (List (String x A)) with first-match lookup (findA) and in-place
    update (insertA), matching CPython insertion-order semantics.
  * YAML scalar values that flow through the code opaquely are modelled by
    the type YVal below; Python str() and truthiness are modelled by
    pyStr and truthy.
  * Identifier-shaped fields (node ids, next/then/else/jump targets, start)
    are typed as String in the document model: well-formed documents use
    string identifiers, and the str() coercions in the loader are the
    identity on strings (the coercion is kept visible where the source
    combines it with a truthiness test).
  * UI positions are floats in the source; they are modelled as exact
    rationals, and Python round(x, 1) is modelled by round1 (decimal
    round-half-to-even), which agrees with the float computation on the
    concrete values used in this file.
  * uuid-based id auto-generation in __post_init__ is nondeterministic and
    is outside the shallow embedding; the claims that touch parsing assume
    well-formed documents with nonempty ids, where that branch is dead.
-/

namespace DlgSpec

/-- A YAML scalar value as produced by yaml.safe_load (strings, ints,
booleans, null).  Floats are handled separately (only UI positions). -/
inductive YVal where
  | s (v : String)
  | i (v : Int)
  | b (v : Bool)
  | null
deriving DecidableEq

/-- Python str() on a YAML scalar. -/
def pyStr : YVal → String
  | .s v => v
  | .i v => toString v
  | .b true => "True"
  | .b false => "False"
  | .null => "None"

/-- Python truthiness of a YAML scalar. -/
def truthy : YVal → Bool
  | .s v => v != ""
  | .i v => v != 0
  | .b v => v
  | .null => false

/-- Python `v == True` (True equals the integer 1 in Python). -/
def pyIsTrue : YVal → Bool
  | .b true => true
  | .i v => v == 1
  | _ => false

/-- First-match lookup in an association list (Python dict lookup;
keys of a dict are unique, so first match is the match). -/
def findA {α : Type} : List (String × α) → String → Option α
  | [], _ => none
  | (k2, v) :: rest, k => if k2 = k then some v else findA rest k

/-- Python `k in d` membership test for a dict. -/
def containsA {α : Type} (l : List (String × α)) (k : String) : Bool :=
  (findA l k).isSome

/-- Python dict assignment d[k] = v: update in place when the key exists
(keeping its position), append otherwise. -/
def insertA {α : Type} : List (String × α) → String → α → List (String × α)
  | [], k, v => [(k, v)]
  | (k2, v2) :: rest, k, v =>
    if k2 = k then (k2, v) :: rest else (k2, v2) :: insertA rest k v

/-! ## The editor data model (src/tools/dialogue_editor/models.py) -/

/-- NodeType enum from models.py. -/
inductive NodeType where
  | SAY | CHOICE | SET | IF | JUMP | END | SIGNAL
deriving DecidableEq

/-- NodePosition dataclass: UI position for graph display. -/
structure NodePosition where
  x : ℚ := 0
  y : ℚ := 0
deriving DecidableEq

/-- ChoiceOption dataclass: a single choice in a CHOICE node.
In the source `condition: Optional[str] = None`. -/
structure ChoiceOption where
  text : String := ""
  next : String := ""
  condition : Option String := none
deriving DecidableEq

/-- DialogueNode dataclass: a single node in the dialogue graph.
The `id` auto-generation of __post_init__ (uuid when blank) is not
modelled; callers of this embedding always supply the id. -/
structure DialogueNode where
  id : String := ""
  type : NodeType := .SAY
  speaker : String := ""
  text : String := ""
  choices : List ChoiceOption := []
  assignments : List (String × YVal) := []
  condition : String := ""
  then_node : String := ""
  else_node : String := ""
  jump_target : String := ""
  signal_name : String := ""
  signal_args : List (String × YVal) := []
  outcome : String := ""
  next : String := ""
  ui_pos : NodePosition := {}
deriving DecidableEq

/-- Character dataclass (models.py).  The uuid branch of __post_init__
(id auto-generation when blank) is not modelled; the name fallback
`if not self.name: self.name = self.id` is applied by the parser below. -/
structure Character where
  id : String := ""
  name : String := ""
  portrait : String := ""
  color : String := "#ffffff"
  tags : List String := []
deriving DecidableEq

/-- Dialogue dataclass (models.py).  file_path is I/O bookkeeping and is
not modelled; is_modified is kept because claims mention it. -/
structure Dialogue where
  id : String := ""
  title : String := ""
  start : String := ""
  characters : List (String × Character) := []
  nodes : List (String × DialogueNode) := []
  tags : List String := []
  is_modified : Bool := false
deriving DecidableEq

/-- The reference-clearing sweep of Dialogue.remove_node: for one
remaining node, clear every outgoing reference equal to the removed id
(next, then_node, else_node, jump_target, each choice next). -/
def cleanupRefs (node_id : String) (node : DialogueNode) : DialogueNode :=
  { node with
    next := if node.next = node_id then "" else node.next
    then_node := if node.then_node = node_id then "" else node.then_node
    else_node := if node.else_node = node_id then "" else node.else_node
    jump_target := if node.jump_target = node_id then "" else node.jump_target
    choices := node.choices.map fun c =>
      if c.next = node_id then { c with next := "" } else c }

/-- Dialogue.remove_node (models.py lines 127-148): delete the node,
mark modified, clear start if it pointed at the node, then sweep every
remaining node clearing dangling references. -/
def Dialogue.remove_node (d : Dialogue) (node_id : String) : Dialogue :=
  if containsA d.nodes node_id then
    { d with
      nodes := (d.nodes.filter fun p => p.1 ≠ node_id).map
        (fun p => (p.1, cleanupRefs node_id p.2))
      start := if d.start = node_id then "" else d.start
      is_modified := true }
  else d

/-- Dialogue.remove_character (models.py lines 155-159): mapping
mutation only, guarded by membership. -/
def Dialogue.remove_character (d : Dialogue) (char_id : String) : Dialogue :=
  if containsA d.characters char_id then
    { d with
      characters := d.characters.filter fun p => p.1 ≠ char_id
      is_modified := true }
  else d

/-! ## Validator (models.py lines 169-236) -/

/-- Quote a string the way the f-strings of validate do. -/
def sq (s : String) : String := "\x27" ++ s ++ "\x27"

/-- The outgoing edges followed by Dialogue._find_reachable for one node,
in source order: next, each choice next, then_node, else_node,
jump_target, each guarded by Python truthiness (nonempty string). -/
def nodeSuccessors (node : DialogueNode) : List String :=
  (if node.next ≠ "" then [node.next] else [])
  ++ (node.choices.filter (fun c => c.next ≠ "")).map (fun c => c.next)
  ++ (if node.then_node ≠ "" then [node.then_node] else [])
  ++ (if node.else_node ≠ "" then [node.else_node] else [])
  ++ (if node.jump_target ≠ "" then [node.jump_target] else [])

/-- Dialogue._find_reachable (models.py lines 215-236), with the visited
set modelled as an insertion-ordered duplicate-free list and the
unbounded recursion of the source bounded by explicit fuel (the source
terminates because every productive call adds one node to visited; the
fuel-stability theorem below recovers exactly that argument). -/
def findReachableAux (nodes : List (String × DialogueNode)) :
    Nat → String → List String → List String
  | 0, _, visited => visited
  | fuel + 1, node_id, visited =>
    if node_id = "" ∨ node_id ∈ visited then visited
    else
      match findA nodes node_id with
      | none => visited
      | some node =>
        (nodeSuccessors node).foldl
          (fun acc s => findReachableAux nodes fuel s acc)
          (visited ++ [node_id])

/-- The visited set computed by validate: _find_reachable from start with
an initially empty set.  Fuel nodes.length + 1 is sufficient (theorem
below). -/
def Dialogue.findReachable (d : Dialogue) : List String :=
  findReachableAux d.nodes (d.nodes.length + 1) d.start []

/-- The reference and speaker checks of validate for one node, in source
order (models.py lines 182-204). -/
def nodeCheckErrors (d : Dialogue) (node_id : String) (node : DialogueNode) :
    List String :=
  (if node.next ≠ "" ∧ ¬ containsA d.nodes node.next then
    ["Node " ++ sq node_id ++ ": " ++ sq "next" ++
      " references unknown node " ++ sq node.next] else [])
  ++ (if node.type = .CHOICE then
      (node.choices.enum.filter
        (fun ic => ic.2.next ≠ "" ∧ ¬ containsA d.nodes ic.2.next)).map
        (fun ic => "Node " ++ sq node_id ++ " choice " ++ toString ic.1 ++
          ": references unknown node " ++ sq ic.2.next)
    else [])
  ++ (if node.type = .IF then
      (if node.then_node ≠ "" ∧ ¬ containsA d.nodes node.then_node then
        ["Node " ++ sq node_id ++ ": " ++ sq "then" ++
          " references unknown node " ++ sq node.then_node] else [])
      ++ (if node.else_node ≠ "" ∧ ¬ containsA d.nodes node.else_node then
        ["Node " ++ sq node_id ++ ": " ++ sq "else" ++
          " references unknown node " ++ sq node.else_node] else [])
    else [])
  ++ (if node.type = .JUMP then
      (if node.jump_target ≠ "" ∧ ¬ containsA d.nodes node.jump_target then
        ["Node " ++ sq node_id ++ ": " ++ sq "jump" ++
          " references unknown node " ++ sq node.jump_target] else [])
    else [])
  ++ (if node.type = .SAY ∧ node.speaker ≠ "" ∧
        ¬ containsA d.characters node.speaker then
      ["Node " ++ sq node_id ++ ": speaker " ++ sq node.speaker ++
        " not in characters"] else [])

/-- The unreachable diagnostic of validate. -/
def unreachableMsg (node_id : String) : String :=
  "Node " ++ sq node_id ++ " is unreachable from start"

/-- Dialogue.validate (models.py lines 169-213), translated line by line
as a state pass: the method reads the dialogue and appends diagnostics to
a local errors list; since the source never assigns to self, the state
component of the result is the dialogue it was given.  Returned as
(self, errors). -/
def Dialogue.validateRun (d : Dialogue) : Dialogue × List String :=
  let errors : List String := []
  let errors := if d.id = "" then
    errors ++ ["Dialogue missing " ++ sq "id"] else errors
  let errors :=
    if d.start = "" then
      errors ++ ["Dialogue missing " ++ sq "start" ++ " node"]
    else if ¬ containsA d.nodes d.start then
      errors ++ ["Start node " ++ sq d.start ++ " does not exist"]
    else errors
  let errors := d.nodes.foldl
    (fun acc p => acc ++ nodeCheckErrors d p.1 p.2) errors
  let reachable := d.findReachable
  let errors := d.nodes.foldl
    (fun acc p => if p.1 ∈ reachable then acc
      else acc ++ [unreachableMsg p.1]) errors
  (d, errors)

/-- The id check of validate, as a standalone phase. -/
def idErrors (d : Dialogue) : List String :=
  if d.id = "" then ["Dialogue missing " ++ sq "id"] else []

/-- The start check of validate, as a standalone phase. -/
def startErrors (d : Dialogue) : List String :=
  if d.start = "" then ["Dialogue missing " ++ sq "start" ++ " node"]
  else if ¬ containsA d.nodes d.start then
    ["Start node " ++ sq d.start ++ " does not exist"]
  else []

/-- The per-node reference and speaker checks of validate, accumulated
over all nodes in insertion order. -/
def refErrors (d : Dialogue) : List String :=
  d.nodes.flatMap fun p => nodeCheckErrors d p.1 p.2

/-- The unreachable-node check of validate. -/
def unreachableErrors (d : Dialogue) : List String :=
  ((d.nodes.map Prod.fst).filter (fun nid => nid ∉ d.findReachable)).map
    unreachableMsg

/-! ## The persisted document model

A YAML dialogue document, restricted to the keys the two codecs read.
Absent keys are `none`.  Keys unknown to the codecs are ignored by the
loader and never produced by the saver, so omitting them does not affect
any statement about parse or serialize.  A YAML key with a null value is
conflated with an absent key where the source treats them alike. -/

/-- The value of a `say` key: either an inline scalar (the line text) or
a mapping with speaker and text. -/
inductive SayField where
  | str (v : String)
  | obj (speaker : Option String) (text : Option String)
deriving DecidableEq

/-- One entry of a `choice` list. -/
structure ChoiceData where
  text : Option String := none
  next : Option String := none
  if_ : Option String := none
deriving DecidableEq

/-- The value of a `signal` key: an inline scalar (the signal name) or a
mapping with name and args.  Well-formed mappings carry a name. -/
inductive SigField where
  | str (v : String)
  | obj (name : String) (args : Option (List (String × YVal)))
deriving DecidableEq

/-- The value of a `ui` key. -/
structure UiData where
  x : Option ℚ := none
  y : Option ℚ := none
deriving DecidableEq

/-- One node record of the `nodes` mapping. -/
structure NodeData where
  say : Option SayField := none
  choice : Option (List ChoiceData) := none
  set : Option (List (String × YVal)) := none
  if_ : Option String := none
  then_ : Option String := none
  else_ : Option String := none
  jump : Option String := none
  signal : Option SigField := none
  endV : Option YVal := none
  next : Option String := none
  ui : Option UiData := none
deriving DecidableEq

/-- One entry of the `characters` mapping: an inline scalar (the display
name) or a mapping. -/
inductive CharData where
  | str (v : String)
  | obj (name : Option String) (portrait : Option String)
        (color : Option String) (tags : Option (List String))
deriving DecidableEq

/-- A whole persisted dialogue document (top-level keys of the format). -/
structure Doc where
  id : Option String := none
  title : Option String := none
  start : Option String := none
  tags : Option (List String) := none
  characters : Option (List (String × CharData)) := none
  nodes : Option (List (String × NodeData)) := none
deriving DecidableEq

/-! ## Source codec: parse (yaml_io.py, DialogueYAMLLoader) -/

/-- One choice option of _parse_node: text defaults to empty, next is
str-coerced under a truthiness guard (identity on strings, empty on
falsy), condition is the raw `if` value (None when absent). -/
def parseChoice (cd : ChoiceData) : ChoiceOption :=
  { text := cd.text.getD ""
    next := cd.next.getD ""
    condition := cd.if_ }

/-- The elif chain of _parse_node (yaml_io.py lines 87-127): probe say,
choice, set, if, jump, signal in order, filling the fields of the first
variant whose key is present. -/
def parseNodeProbe (node : DialogueNode) (data : NodeData) : DialogueNode :=
  match data.say with
  | some (.obj speaker text) =>
    { node with type := .SAY, speaker := speaker.getD ""
                text := text.getD "" }
  | some (.str v) => { node with type := .SAY, text := v }
  | none =>
    match data.choice with
    | some opts => { node with type := .CHOICE
                               choices := opts.map parseChoice }
    | none =>
      match data.set with
      | some kvs => { node with type := .SET, assignments := kvs }
      | none =>
        match data.if_ with
        | some cond =>
          { node with type := .IF, condition := cond
                      then_node := data.then_.getD ""
                      else_node := data.else_.getD "" }
        | none =>
          match data.jump with
          | some j =>
            { node with type := .JUMP
                        jump_target := if j = "" then "" else j }
          | none =>
            match data.signal with
            | some (.obj name args) =>
              { node with type := .SIGNAL, signal_name := name
                          signal_args := args.getD [] }
            | some (.str v) =>
              { node with type := .SIGNAL, signal_name := v }
            | none => node

/-- The independent `end` check of _parse_node (yaml_io.py lines
129-133): when the key is present it overrides the node type with END,
whatever the probe selected. -/
def parseNodeEnd (node : DialogueNode) (data : NodeData) : DialogueNode :=
  match data.endV with
  | some v =>
    { node with type := .END
                outcome := if pyIsTrue v then "" else pyStr v }
  | none => node

/-- The common fields of _parse_node (yaml_io.py lines 135-145): the
`next` field (str-coerced under truthiness, identity here) and the ui
position with per-coordinate defaults of zero. -/
def parseNodeCommon (node : DialogueNode) (data : NodeData) : DialogueNode :=
  let node :=
    match data.next with
    | some nx => { node with next := nx }
    | none => node
  match data.ui with
  | some u => { node with ui_pos := { x := u.x.getD 0, y := u.y.getD 0 } }
  | none => node

/-- DialogueYAMLLoader._parse_node (yaml_io.py lines 81-147): start from
a fresh node carrying the mapping key as id, run the variant probe, the
end override, then the common fields. -/
def parseNode (node_id : String) (data : NodeData) : DialogueNode :=
  parseNodeCommon (parseNodeEnd (parseNodeProbe { id := node_id } data) data)
    data

/-- Loading one character entry (yaml_io.py lines 59-70), composed with
the Character __post_init__ name fallback. -/
def parseCharacter (char_id : String) (cd : CharData) : Character :=
  match cd with
  | .obj name portrait color tags =>
    let nm := name.getD char_id
    { id := char_id
      name := if nm = "" then char_id else nm
      portrait := portrait.getD ""
      color := color.getD "#ffffff"
      tags := tags.getD [] }
  | .str v =>
    { id := char_id
      name := if v = "" then char_id else v
      portrait := ""
      color := "#ffffff"
      tags := [] }

/-- DialogueYAMLLoader.load_dialogue (yaml_io.py lines 41-79), with the
file I/O stripped.  Characters and nodes are inserted one by one, as the
source assigns into the dialogue dicts. -/
def parseDialogue (doc : Doc) : Dialogue :=
  let did := doc.id.getD ""
  let dtitle := doc.title.getD ""
  { id := did
    title := if dtitle = "" then did else dtitle
    start := doc.start.getD ""
    characters := (doc.characters.getD []).foldl
      (fun acc p => insertA acc p.1 (parseCharacter p.1 p.2)) []
    nodes := (doc.nodes.getD []).foldl
      (fun acc p => insertA acc p.1 (parseNode p.1 p.2)) []
    tags := doc.tags.getD []
    is_modified := false }

/-! ## Source codec: serialize (yaml_io.py, DialogueYAMLSaver) -/

/-- Round-half-to-even of a rational to an integer, written with integer
arithmetic only (f is the floor; the fractional part r = rnum / den is
compared against one half by cross multiplication) so that it evaluates
by kernel reduction. -/
def roundHalfEven (q : ℚ) : ℤ :=
  let f := q.num.fdiv (q.den : ℤ)
  let rnum := q.num - f * (q.den : ℤ)
  if 2 * rnum < (q.den : ℤ) then f
  else if (q.den : ℤ) < 2 * rnum then f + 1
  else if f % 2 = 0 then f else f + 1

/-- Python round(x, 1) of the saver, on exact rationals: decimal
round-half-to-even of 10x, divided by 10. -/
def round1 (q : ℚ) : ℚ := mkRat (roundHalfEven (mkRat (10 * q.num) q.den)) 10

/-- One choice option of _node_to_dict (yaml_io.py lines 228-235): text
and next always emitted, the condition only when truthy. -/
def choiceToDict (c : ChoiceOption) : ChoiceData :=
  { text := some c.text
    next := some c.next
    if_ := match c.condition with
           | some s => if s = "" then none else some s
           | none => none }

/-- DialogueYAMLSaver._node_to_dict (yaml_io.py lines 214-273). -/
def nodeToDict (node : DialogueNode) : NodeData :=
  let data : NodeData := {}
  let data :=
    match node.type with
    | .SAY => { data with
        say := some (.obj (some node.speaker) (some node.text)) }
    | .CHOICE => { data with
        choice := some (node.choices.map choiceToDict) }
    | .SET => { data with set := some node.assignments }
    | .IF => { data with
        if_ := some node.condition
        then_ := if node.then_node ≠ "" then some node.then_node else none
        else_ := if node.else_node ≠ "" then some node.else_node else none }
    | .JUMP => { data with jump := some node.jump_target }
    | .SIGNAL =>
      if node.signal_args ≠ [] then
        { data with signal := some (.obj node.signal_name
                                      (some node.signal_args)) }
      else { data with signal := some (.str node.signal_name) }
    | .END => { data with
        endV := some (if node.outcome ≠ "" then .s node.outcome
                      else .b true) }
  let data :=
    if node.next ≠ "" ∧
        node.type ∉ [NodeType.CHOICE, .IF, .JUMP, .END] then
      { data with next := some node.next }
    else data
  { data with ui := some { x := some (round1 node.ui_pos.x)
                           y := some (round1 node.ui_pos.y) } }

/-- One character entry of _dialogue_to_dict (yaml_io.py lines 193-201). -/
def charToDict (ch : Character) : CharData :=
  .obj (some ch.name)
    (if ch.portrait ≠ "" then some ch.portrait else none)
    (if ch.color ≠ "" ∧ ch.color ≠ "#ffffff" then some ch.color else none)
    (if ch.tags ≠ [] then some ch.tags else none)

/-- DialogueYAMLSaver._dialogue_to_dict (yaml_io.py lines 177-212). -/
def dialogueToDict (dialogue : Dialogue) : Doc :=
  { id := some dialogue.id
    title := if dialogue.title ≠ "" ∧ dialogue.title ≠ dialogue.id then
      some dialogue.title else none
    tags := if dialogue.tags ≠ [] then some dialogue.tags else none
    characters := if dialogue.characters ≠ [] then
      some (dialogue.characters.map fun p => (p.1, charToDict p.2))
    else none
    start := some dialogue.start
    nodes := some (dialogue.nodes.map fun p => (p.1, nodeToDict p.2)) }

/-! ## Timeline codec (src/tools/yaml_to_dialogic.py)

The converter works on the raw YAML document (the same Doc shape as the
loader), not on the editor model.  Each emitted Dialogic event dict
becomes one constructor below, with one field per dict key beyond the
event_name discriminator. -/

/-- One Dialogic timeline event, as emitted by
DialogueConverter._process_node_content and _process_node_chain. -/
inductive DialogicEvent where
  | label (name : String)
  | text (character : String) (line : String)
  | choiceEv (line : String) (condition : Option String)
  | jump (target : String)
  | endBranch
  | variableEv (name : String) (value : YVal)
  | condition (cond : String)
  | elseEv
  | signal (name : String) (args : List (String × YVal))
  | endEv (outcome : String)
deriving DecidableEq

/-- The choice block of _process_node_content (yaml_to_dialogic.py lines
167-191): per option a prompt event (condition key only when truthy),
then, when the option has a target, a jump event and an end-branch
marker. -/
def choiceEvents (opts : List ChoiceData) : List DialogicEvent :=
  opts.flatMap fun c =>
    let cnext := c.next.getD ""
    let cond : Option String :=
      match c.if_ with
      | some s => if s = "" then none else some s
      | none => none
    [DialogicEvent.choiceEv (c.text.getD "") cond]
    ++ (if cnext ≠ "" then
        [DialogicEvent.jump cnext, DialogicEvent.endBranch] else [])

/-- DialogueConverter._process_node_content (yaml_to_dialogic.py lines
142-255).  Every key is probed independently (no elif): a node carrying
several variant keys emits all their events, in source order say,
choice, set, if, jump, signal, end.  The speaker display-name resolution
of the source is dead code (char_name is never used); the text event
carries the raw speaker id. -/
def processNodeContent (node : NodeData) : List DialogicEvent :=
  (match node.say with
   | some (.obj speaker text) =>
     [DialogicEvent.text (speaker.getD "") (text.getD "")]
   | some (.str v) => [DialogicEvent.text "" v]
   | none => [])
  ++ (match node.choice with
      | some opts => choiceEvents opts
      | none => [])
  ++ (match node.set with
      | some kvs => kvs.map fun p => DialogicEvent.variableEv p.1 p.2
      | none => [])
  ++ (match node.if_ with
      | some cond =>
        let then_target := node.then_.getD ""
        let else_target := node.else_.getD ""
        [DialogicEvent.condition cond]
        ++ (if then_target ≠ "" then [DialogicEvent.jump then_target]
            else [])
        ++ (if else_target ≠ "" then
            [DialogicEvent.elseEv, DialogicEvent.jump else_target] else [])
        ++ [DialogicEvent.endBranch]
      | none => [])
  ++ (match node.jump with
      | some t => [DialogicEvent.jump t]
      | none => [])
  ++ (match node.signal with
      | some (.obj name args) => [DialogicEvent.signal name (args.getD [])]
      | some (.str v) => [DialogicEvent.signal v []]
      | none => [])
  ++ (match node.endV with
      | some v =>
        [DialogicEvent.endEv (if pyIsTrue v then "" else pyStr v)]
      | none => [])

/-- Python truthiness of `node.get("end")` (absent key is falsy). -/
def endTruthy (node : NodeData) : Bool :=
  match node.endV with
  | some v => truthy v
  | none => false

/-- DialogueConverter._process_node_chain (yaml_to_dialogic.py lines
121-140): visited-guarded, label each first visit, emit the node
content, then follow `next` when the end value is falsy and a next key
is present.  The unbounded recursion of the source is bounded by fuel;
stability is proved below. -/
def processNodeChain (nodes : List (String × NodeData)) :
    Nat → String → List DialogicEvent → List String →
    List DialogicEvent × List String
  | 0, _, events, visited => (events, visited)
  | fuel + 1, node_id, events, visited =>
    if node_id ∈ visited ∨ ¬ containsA nodes node_id then (events, visited)
    else
      match findA nodes node_id with
      | none => (events, visited)
      | some node =>
        let visited := visited ++ [node_id]
        let events := events ++ [DialogicEvent.label node_id]
          ++ processNodeContent node
        if ¬ endTruthy node ∧ node.next.isSome then
          processNodeChain nodes fuel (node.next.getD "") events visited
        else (events, visited)

/-- A Dialogic timeline: the event list plus the metadata block. -/
structure Timeline where
  events : List DialogicEvent
  source : String
  id : String
  title : String
deriving DecidableEq

/-- DialogueConverter.convert (yaml_to_dialogic.py lines 101-119)
together with the constructor field extraction (lines 37-48): process
the chain from the start node with an empty visited set and wrap the
result with the metadata. -/
def convert (data : Doc) (source_file : String) : Timeline :=
  let dialogue_id := data.id.getD ""
  let nodes := data.nodes.getD []
  let start_node := data.start.getD ""
  let r := processNodeChain nodes (nodes.length + 1) start_node [] []
  { events := r.1
    source := source_file
    id := dialogue_id
    title := data.title.getD dialogue_id }

/-- The node labels occurring in an event list, in order. -/
def labelsOf (events : List DialogicEvent) : List String :=
  events.flatMap fun e =>
    match e with
    | .label s => [s]
    | _ => []

/-! ## Helper lemmas on association lists -/

theorem findA_eq_none {α : Type} {l : List (String × α)} {k : String}
    (h : ∀ p ∈ l, p.1 ≠ k) : findA l k = none := by
  induction l with
  | nil => rfl
  | cons p rest ih =>
    obtain ⟨k2, v⟩ := p
    have hk : k2 ≠ k := h (k2, v) (List.mem_cons_self _ _)
    simp only [findA, if_neg hk]
    exact ih fun q hq => h q (List.mem_cons_of_mem _ hq)

theorem insertA_append_of_not_mem {α : Type} {l : List (String × α)}
    {k : String} (v : α) (h : findA l k = none) :
    insertA l k v = l ++ [(k, v)] := by
  induction l with
  | nil => rfl
  | cons p rest ih =>
    obtain ⟨k2, v2⟩ := p
    by_cases hk : k2 = k
    · simp [findA, hk] at h
    · simp only [insertA, if_neg hk, List.cons_append, List.cons.injEq,
        true_and]
      exact ih (by simpa [findA, hk] using h)

theorem findA_append_single_none {α : Type} {acc : List (String × α)}
    {k q : String} {v : α} (h2 : findA acc q = none) (hqk : q ≠ k) :
    findA (acc ++ [(k, v)]) q = none := by
  induction acc with
  | nil =>
    simp only [List.nil_append, findA]
    rw [if_neg fun h => hqk h.symm]
  | cons a rest ih =>
    obtain ⟨ak, av⟩ := a
    by_cases hik : ak = q
    · simp [findA, hik] at h2
    · simp only [List.cons_append, findA, if_neg hik] at h2 ⊢
      exact ih h2

/-- Folding dict insertion over a list with duplicate-free keys, into an
accumulator whose keys avoid the list, appends the mapped entries in
order. -/
theorem foldl_insertA_eq_append {α β : Type} (f : String → α → β) :
    ∀ (l : List (String × α)) (acc : List (String × β)),
      ((l.map Prod.fst).Nodup) →
      (∀ p ∈ l, findA acc p.1 = none) →
      l.foldl (fun acc p => insertA acc p.1 (f p.1 p.2)) acc
        = acc ++ l.map (fun p => (p.1, f p.1 p.2)) := by
  intro l
  induction l with
  | nil => intro acc _ _; simp
  | cons p rest ih =>
    intro acc hnd hacc
    obtain ⟨k, v⟩ := p
    simp only [List.map_cons, List.nodup_cons] at hnd
    have h1 : findA acc k = none := hacc (k, v) (List.mem_cons_self _ _)
    simp only [List.foldl_cons]
    rw [insertA_append_of_not_mem (f k v) h1]
    rw [ih (acc ++ [(k, f k v)]) hnd.2]
    · simp
    · intro q hq
      have hqk : q.1 ≠ k := by
        intro he
        exact hnd.1 (he ▸ List.mem_map_of_mem Prod.fst hq)
      exact findA_append_single_none
        (hacc q (List.mem_cons_of_mem _ hq)) hqk

theorem findA_map_value {α β : Type} (g : String → α → β) :
    ∀ (l : List (String × α)) (k : String),
      findA (l.map fun p => (p.1, g p.1 p.2)) k
        = (findA l k).map (g k) := by
  intro l
  induction l with
  | nil => intro k; rfl
  | cons p rest ih =>
    intro k
    obtain ⟨k2, v⟩ := p
    by_cases hk : k2 = k
    · subst hk; simp [findA]
    · simp [findA, hk, ih]

/-! ## Claim C10: removal with an absent id is a no-op -/

/-- Claim C10: for every Dialogue, calling remove_node with an id not
present in nodes, or remove_character with an id not present in
characters, leaves the Dialogue entirely unchanged, including start, all
nodes and their reference fields, and the is_modified flag. -/
theorem remove_absent_is_noop (d : Dialogue) (node_id char_id : String)
    (h1 : containsA d.nodes node_id = false)
    (h2 : containsA d.characters char_id = false) :
    d.remove_node node_id = d ∧ d.remove_character char_id = d := by
  constructor
  · unfold Dialogue.remove_node
    simp [h1]
  · unfold Dialogue.remove_character
    simp [h2]

/-- A two-node dialogue used as concrete input below. -/
def wDialogue : Dialogue :=
  { id := "d", title := "d", start := "a",
    nodes := [("a", { id := "a", type := .SAY, text := "x", next := "b" }),
              ("b", { id := "b", type := .END })] }

/-- Witness for remove_absent_is_noop at a concrete dialogue and ids
absent from it. -/
theorem remove_absent_is_noop_witness :
    wDialogue.remove_node "zzz" = wDialogue ∧
    wDialogue.remove_character "zzz" = wDialogue :=
  remove_absent_is_noop wDialogue "zzz" "zzz" (by decide) (by decide)

/-! ## Claim C2: remove_node clears every reference to the removed id -/

/-- A dialogue holding a node stored under the empty-string key, plus a
node whose next field is unset (empty).  Python permits such a dict key,
and the loader produces one from a YAML document with an empty node key. -/
def c2Dialogue : Dialogue :=
  { id := "d", title := "d", start := "b",
    nodes := [("", { id := "e", type := .SAY }),
              ("b", { id := "b", type := .SAY, next := "" })] }

/-- Claim C2 as stated is false for the node id equal to the empty
string: that id is present in c2Dialogue, yet after remove_node the
remaining node b keeps a next field equal to the removed id, because
clearing a reference writes the empty string, which is the removed id
itself. -/
theorem c2_counterexample :
    containsA c2Dialogue.nodes "" = true ∧
    ∃ p ∈ (c2Dialogue.remove_node "").nodes, p.2.next = "" := by decide

/-- Claim C2 (amended: for every nonempty node id present in the
dialogue): after remove_node, the node is gone; if start equaled the id
then start is empty; and no remaining node has any reference field
(next, then, else, jump target, any choice next) equal to the id. -/
theorem remove_node_clears_references (d : Dialogue) (node_id : String)
    (hne : node_id ≠ "") (hmem : containsA d.nodes node_id = true) :
    containsA (d.remove_node node_id).nodes node_id = false ∧
    (d.start = node_id → (d.remove_node node_id).start = "") ∧
    ∀ p ∈ (d.remove_node node_id).nodes,
      p.2.next ≠ node_id ∧ p.2.then_node ≠ node_id ∧
      p.2.else_node ≠ node_id ∧ p.2.jump_target ≠ node_id ∧
      ∀ c ∈ p.2.choices, c.next ≠ node_id := by
  unfold Dialogue.remove_node
  simp only [hmem, if_true]
  refine ⟨?_, ?_, ?_⟩
  · have : ∀ p ∈ (d.nodes.filter fun p => p.1 ≠ node_id).map
        (fun p => (p.1, cleanupRefs node_id p.2)), p.1 ≠ node_id := by
      intro p hp
      obtain ⟨q, hq, rfl⟩ := List.mem_map.mp hp
      have := (List.mem_filter.mp hq).2
      simpa using this
    simp only [containsA, findA_eq_none this, Option.isSome_none]
  · intro hstart
    simp [hstart]
  · intro p hp
    obtain ⟨q, _, rfl⟩ := List.mem_map.mp hp
    unfold cleanupRefs
    refine ⟨?_, ?_, ?_, ?_, ?_⟩
    · by_cases h : q.2.next = node_id <;> simp [h, Ne.symm hne, hne]
    · by_cases h : q.2.then_node = node_id <;> simp [h, Ne.symm hne, hne]
    · by_cases h : q.2.else_node = node_id <;> simp [h, Ne.symm hne, hne]
    · by_cases h : q.2.jump_target = node_id <;> simp [h, Ne.symm hne, hne]
    · intro c hc
      obtain ⟨c0, _, rfl⟩ := List.mem_map.mp hc
      by_cases h : c0.next = node_id <;> simp [h, Ne.symm hne, hne]

/-- Witness for remove_node_clears_references on a concrete dialogue:
removing node a clears the reference from node b. -/
theorem remove_node_clears_references_witness :
    containsA (wDialogue.remove_node "a").nodes "a" = false ∧
    (wDialogue.start = "a" → (wDialogue.remove_node "a").start = "") ∧
    ∀ p ∈ (wDialogue.remove_node "a").nodes,
      p.2.next ≠ "a" ∧ p.2.then_node ≠ "a" ∧
      p.2.else_node ≠ "a" ∧ p.2.jump_target ≠ "a" ∧
      ∀ c ∈ p.2.choices, c.next ≠ "a" :=
  remove_node_clears_references wDialogue "a" (by decide) (by decide)

/-! ## Claim C4: the variant-selection rule of the parser -/

/-- The variant-selection rule in the words of the specification: probe
the structural keys in the order say, choice, set, if, jump, signal, and
check end independently afterwards, an end key always winning.  Written
from the spec sentence, to be compared with the parser taken from the
source. -/
def specVariant (data : NodeData) : NodeType :=
  let probed : NodeType :=
    if data.say.isSome then .SAY
    else if data.choice.isSome then .CHOICE
    else if data.set.isSome then .SET
    else if data.if_.isSome then .IF
    else if data.jump.isSome then .JUMP
    else if data.signal.isSome then .SIGNAL
    else .SAY
  if data.endV.isSome then .END else probed

theorem parseNodeCommon_type (node : DialogueNode) (data : NodeData) :
    (parseNodeCommon node data).type = node.type := by
  unfold parseNodeCommon
  cases data.next <;> cases data.ui <;> rfl

theorem parseNodeEnd_type (node : DialogueNode) (data : NodeData) :
    (parseNodeEnd node data).type =
      if data.endV.isSome then .END else node.type := by
  unfold parseNodeEnd
  cases data.endV <;> rfl

theorem parseNodeProbe_type (node : DialogueNode) (data : NodeData) :
    (parseNodeProbe node data).type =
      if data.say.isSome then .SAY
      else if data.choice.isSome then .CHOICE
      else if data.set.isSome then .SET
      else if data.if_.isSome then .IF
      else if data.jump.isSome then .JUMP
      else if data.signal.isSome then .SIGNAL
      else node.type := by
  unfold parseNodeProbe
  rcases hs : data.say with _ | sf
  · rcases hc : data.choice with _ | _
    · rcases hset : data.set with _ | _
      · rcases hif : data.if_ with _ | _
        · rcases hj : data.jump with _ | _
          · rcases hsig : data.signal with _ | gf
            · simp
            · cases gf <;> simp
          · simp
        · simp
      · simp
    · simp
  · cases sf <;> simp

/-- Claim C4: for every node record, the parsed variant is selected by
probing the structural keys in the order say, choice, set, if, jump,
signal, with the end key checked independently afterwards and
overriding the selection to END whenever present. -/
theorem parse_node_variant_selection (node_id : String) (data : NodeData) :
    (parseNode node_id data).type = specVariant data := by
  unfold parseNode specVariant
  rw [parseNodeCommon_type, parseNodeEnd_type, parseNodeProbe_type]

/-! ## Claim C5: which fields serialize omits -/

/-- A JUMP node whose target is unset (the zero-value default). -/
def c5JumpNode : DialogueNode := { id := "j", type := .JUMP }

/-- A dialogue with no nodes at all. -/
def c5EmptyDialogue : Dialogue := { id := "d", title := "d" }

/-- Claim C5 as stated is false: the jump field of a JUMP node is
emitted even when it equals the zero-value default (empty string), and
the nodes mapping is emitted even when empty, although neither is the
position pair nor the top-level start. -/
theorem c5_counterexample :
    c5JumpNode.jump_target = "" ∧
    (nodeToDict c5JumpNode).jump = some "" ∧
    c5EmptyDialogue.nodes = [] ∧
    (dialogueToDict c5EmptyDialogue).nodes = some [] := by decide

/-- Claim C5 (amended): serialize omits the optional fields when they
equal their defaults (title, which is also omitted when equal to id;
tags; characters; a node next, which is also suppressed on branching and
terminal variants), but always emits id, start, the nodes mapping, the
per-node position pair, and the primary payload of the selected variant
(say speaker and text, jump target, end value) even when these equal
their zero-value defaults. -/
theorem serialize_field_omission (d : Dialogue) (n : DialogueNode)
    (c : ChoiceOption) :
    (dialogueToDict d).id = some d.id ∧
    (dialogueToDict d).start = some d.start ∧
    (dialogueToDict d).nodes
      = some (d.nodes.map fun p => (p.1, nodeToDict p.2)) ∧
    (dialogueToDict d).title
      = (if d.title ≠ "" ∧ d.title ≠ d.id then some d.title else none) ∧
    (dialogueToDict d).tags = (if d.tags ≠ [] then some d.tags else none) ∧
    (dialogueToDict d).characters
      = (if d.characters ≠ [] then
          some (d.characters.map fun p => (p.1, charToDict p.2))
         else none) ∧
    (nodeToDict n).ui = some { x := some (round1 n.ui_pos.x)
                               y := some (round1 n.ui_pos.y) } ∧
    (nodeToDict n).next
      = (if n.next ≠ "" ∧ n.type ∉ [NodeType.CHOICE, .IF, .JUMP, .END]
         then some n.next else none) ∧
    (nodeToDict n).jump
      = (if n.type = .JUMP then some n.jump_target else none) ∧
    (nodeToDict n).say
      = (if n.type = .SAY then some (.obj (some n.speaker) (some n.text))
         else none) ∧
    (nodeToDict n).endV
      = (if n.type = .END then
          some (if n.outcome ≠ "" then .s n.outcome else .b true)
         else none) ∧
    (nodeToDict n).choice
      = (if n.type = .CHOICE then some (n.choices.map choiceToDict)
         else none) ∧
    (choiceToDict c).text = some c.text ∧
    (choiceToDict c).next = some c.next ∧
    (choiceToDict c).if_
      = (if c.condition = none ∨ c.condition = some "" then none
         else c.condition) ∧
    (nodeToDict n).set
      = (if n.type = .SET then some n.assignments else none) ∧
    (nodeToDict n).if_
      = (if n.type = .IF then some n.condition else none) ∧
    (nodeToDict n).then_
      = (if n.type = .IF ∧ n.then_node ≠ "" then some n.then_node
         else none) ∧
    (nodeToDict n).else_
      = (if n.type = .IF ∧ n.else_node ≠ "" then some n.else_node
         else none) ∧
    (nodeToDict n).signal
      = (if n.type = .SIGNAL then
          some (if n.signal_args ≠ [] then
            SigField.obj n.signal_name (some n.signal_args)
          else SigField.str n.signal_name)
         else none) := by
  have hcif : (choiceToDict c).if_
      = (if c.condition = none ∨ c.condition = some "" then none
         else c.condition) := by
    unfold choiceToDict
    rcases hc : c.condition with _ | s
    · simp
    · by_cases hs : s = "" <;> simp [hs]
  refine ⟨rfl, rfl, rfl, rfl, rfl, rfl, ?_, ?_, ?_, ?_, ?_, ?_, rfl, rfl,
    hcif, ?_, ?_, ?_, ?_, ?_⟩ <;>
    · unfold nodeToDict
      cases htype : n.type <;>
        by_cases hnx : n.next ≠ "" <;>
          by_cases hsig : n.signal_args = [] <;>
            by_cases hth : n.then_node = "" <;>
              by_cases hel : n.else_node = "" <;>
                simp [htype, hnx, hsig, hth, hel]

/-! ## Claims C7 and C9: the validator pass -/

theorem foldl_nodeCheck_eq (d : Dialogue) :
    ∀ (l : List (String × DialogueNode)) (init : List String),
      l.foldl (fun acc p => acc ++ nodeCheckErrors d p.1 p.2) init
        = init ++ l.flatMap (fun p => nodeCheckErrors d p.1 p.2) := by
  intro l
  induction l with
  | nil => intro init; simp
  | cons a rest ih =>
    intro init
    simp only [List.foldl_cons, List.flatMap_cons, ih, List.append_assoc]

theorem foldl_unreach_eq (reachable : List String) :
    ∀ (l : List (String × DialogueNode)) (init : List String),
      l.foldl (fun acc p => if p.1 ∈ reachable then acc
          else acc ++ [unreachableMsg p.1]) init
        = init ++ ((l.map Prod.fst).filter
            (fun nid => nid ∉ reachable)).map unreachableMsg := by
  intro l
  induction l with
  | nil => intro init; simp
  | cons a rest ih =>
    intro init
    by_cases hc : a.1 ∈ reachable <;>
      simp [List.filter_cons, hc, ih, List.append_assoc]

/-- The validator decomposes into its four phases, accumulated in order:
the id check, the start check, the per-node reference and speaker
checks, then the unreachable-node report. -/
theorem validateRun_eq (d : Dialogue) :
    d.validateRun = (d, idErrors d ++ startErrors d ++ refErrors d
      ++ unreachableErrors d) := by
  unfold Dialogue.validateRun idErrors startErrors refErrors
    unreachableErrors
  dsimp only
  rw [foldl_nodeCheck_eq, foldl_unreach_eq]
  by_cases hid : d.id = "" <;>
    by_cases hst : d.start = "" <;>
      by_cases hex : containsA d.nodes d.start <;>
        simp [hid, hst, hex]

/-- Claim C7: for every Dialogue, validate is a read-only pass: the
dialogue component of the step is returned unchanged (the source never
assigns to self), nothing is thrown (the translation is a total
function into a plain list), and the result is the ordered accumulation
of all four diagnostic phases, never stopping at the first finding. -/
theorem validate_readonly_accumulates (d : Dialogue) :
    d.validateRun.1 = d ∧
    d.validateRun.2 = idErrors d ++ startErrors d ++ refErrors d
      ++ unreachableErrors d := by
  rw [validateRun_eq]
  exact ⟨rfl, rfl⟩

/-- With an empty start id the reachability traversal returns its
visited set unchanged: the source guard `if not node_id` fires. -/
theorem findReachableAux_empty_id (nodes : List (String × DialogueNode))
    (fuel : Nat) (visited : List String) :
    findReachableAux nodes (fuel + 1) "" visited = visited := by
  simp [findReachableAux]

/-- Claim C9: for every Dialogue whose start is empty and which has at
least one node, validate reports the missing-start diagnostic and an
unreachable diagnostic for every node, because the traversal from the
empty id visits nothing. -/
theorem validate_empty_start_all_unreachable (d : Dialogue)
    (hst : d.start = "") (_hne : d.nodes ≠ []) :
    ("Dialogue missing " ++ sq "start" ++ " node") ∈ d.validateRun.2 ∧
    ∀ nid ∈ d.nodes.map Prod.fst, unreachableMsg nid ∈ d.validateRun.2 := by
  rw [validateRun_eq]
  have hreach : d.findReachable = [] := by
    unfold Dialogue.findReachable
    rw [hst]
    exact findReachableAux_empty_id _ _ _
  constructor
  · have : "Dialogue missing " ++ sq "start" ++ " node" ∈ startErrors d := by
      unfold startErrors
      rw [hst]
      simp
    simp only [List.mem_append]
    exact Or.inl (Or.inl (Or.inr this))
  · intro nid hnid
    have : unreachableMsg nid ∈ unreachableErrors d := by
      unfold unreachableErrors
      rw [hreach]
      refine List.mem_map_of_mem unreachableMsg ?_
      simpa using hnid
    simp only [List.mem_append]
    exact Or.inr this

/-- A dialogue with an empty start and one node, witnessing
validate_empty_start_all_unreachable. -/
def c9Dialogue : Dialogue :=
  { id := "d", title := "d", start := "",
    nodes := [("a", { id := "a", type := .SAY, text := "x" })] }

/-- Witness: on c9Dialogue the two conclusions hold with the hypotheses
discharged on concrete values. -/
theorem validate_empty_start_all_unreachable_witness :
    ("Dialogue missing " ++ sq "start" ++ " node") ∈ c9Dialogue.validateRun.2 ∧
    ∀ nid ∈ c9Dialogue.nodes.map Prod.fst,
      unreachableMsg nid ∈ c9Dialogue.validateRun.2 :=
  validate_empty_start_all_unreachable c9Dialogue (by decide) (by decide)

/-! ## Claim C3: which nodes the timeline traversal follows next from -/

theorem label_not_mem_choiceEvents (opts : List ChoiceData) (s : String) :
    DialogicEvent.label s ∉ choiceEvents opts := by
  unfold choiceEvents
  intro h
  rw [List.mem_flatMap] at h
  obtain ⟨c, _, hc⟩ := h
  by_cases hn : (c.next.getD "") ≠ "" <;> simp [hn] at hc

/-- The content pass never emits a label event: labels come only from
the chain traversal. -/
theorem label_not_mem_content (nd : NodeData) (s : String) :
    DialogicEvent.label s ∉ processNodeContent nd := by
  unfold processNodeContent
  intro h
  simp only [List.mem_append] at h
  rcases h with ((((((h | h) | h) | h) | h) | h) | h)
  · rcases hs : nd.say with _ | sf
    · simp [hs] at h
    · cases sf <;> simp [hs] at h
  · rcases hc : nd.choice with _ | opts
    · simp [hc] at h
    · rw [hc] at h
      exact label_not_mem_choiceEvents opts s h
  · rcases hst : nd.set with _ | kvs <;> simp [hst] at h
  · rcases hif : nd.if_ with _ | cond
    · simp [hif] at h
    · rw [hif] at h
      dsimp only at h
      by_cases h1 : (nd.then_.getD "") ≠ "" <;>
        by_cases h2 : (nd.else_.getD "") ≠ "" <;>
          simp [h1, h2] at h
  · rcases hj : nd.jump with _ | t <;> simp [hj] at h
  · rcases hg : nd.signal with _ | gf
    · simp [hg] at h
    · cases gf <;> simp [hg] at h
  · rcases he : nd.endV with _ | v <;> simp [he] at h

/-- The second node of the two-node document below. -/
def c3NodeB : NodeData := { say := some (.str "line b") }

/-- A two-node document whose first node is arbitrary: node a is the
start, node b is reachable only through the chain traversal of a. -/
def mkC3Doc (nd : NodeData) : Doc :=
  { id := some "d", start := some "a",
    nodes := some [("a", nd), ("b", c3NodeB)] }

/-- Claim C3 (amended): after emitting a node's events the traversal
follows the node's next exactly when a next key is present and the
node's end value is falsy, regardless of the variant: Say, Set and
Signal nodes follow next, but so do Choice, If and Jump nodes carrying a
next key, and so does an End node whose end value is falsy; only a
truthy end value (or no next key) stops the chain. -/
theorem chain_follows_next_iff (nd : NodeData)
    (h : nd.next = some "b" ∨ nd.next = none) :
    DialogicEvent.label "b" ∈ (convert (mkC3Doc nd) "src").events ↔
      (nd.next = some "b" ∧ endTruthy nd = false) := by
  have hb : ("b" : String) ≠ "a" := by decide
  unfold convert mkC3Doc
  dsimp only
  rcases h with hnx | hnx <;> by_cases hE : endTruthy nd = true
  · simp only [processNodeChain, containsA, findA]
    simp [hnx, hE, label_not_mem_content, hb]
  · replace hE : endTruthy nd = false := by
      cases hEv : endTruthy nd
      · rfl
      · exact absurd hEv hE
    simp only [processNodeChain, containsA, findA]
    simp [hnx, hE, processNodeChain, containsA, findA, c3NodeB,
      label_not_mem_content, hb]
  · simp only [processNodeChain, containsA, findA]
    simp [hnx, hE, label_not_mem_content, hb]
  · replace hE : endTruthy nd = false := by
      cases hEv : endTruthy nd
      · rfl
      · exact absurd hEv hE
    simp only [processNodeChain, containsA, findA]
    simp [hnx, hE, label_not_mem_content, hb]

/-- A Choice node that also carries a next key pointing at b. -/
def c3ChoiceNode : NodeData :=
  { choice := some [{ text := some "opt", next := some "b" }]
    next := some "b" }

/-- Witness for chain_follows_next_iff: with a concrete Choice node
carrying a next key, the traversal does reach node b. -/
theorem chain_follows_next_iff_witness :
    DialogicEvent.label "b" ∈ (convert (mkC3Doc c3ChoiceNode) "src").events :=
  (chain_follows_next_iff c3ChoiceNode (Or.inl rfl)).mpr (by decide)

/-- A document whose start node is a Choice node with an explicit next
key pointing at an otherwise unreferenced node c. -/
def c3CexDoc : Doc :=
  { id := some "d", start := some "a",
    nodes := some
      [("a", { choice := some [{ text := some "opt", next := some "b" }]
               next := some "c" }),
       ("b", { say := some (.str "hi b") }),
       ("c", { say := some (.str "hi c") })] }

/-- Claim C3 as stated is false: on c3CexDoc the traversal emits the
Choice node's option events and then falls through to the node's own
next, visiting node c (its label and text follow the branch events). -/
theorem c3_counterexample :
    (convert c3CexDoc "src").events
      = [.label "a", .choiceEv "opt" none, .jump "b", .endBranch,
         .label "c", .text "" "hi c"] := by decide

/-! ## Claim C6: termination and single visits of the two traversals

Both traversals are modelled with fuel; the theorems below show the
fuel bound nodes.length + 1 is exact (more fuel never changes the
result, which is the termination argument of the source: every
productive call adds one node to the visited set), and that visited
sets and emitted label sequences are duplicate-free. -/

/-- The number of node keys not yet visited: the decreasing measure of
both traversals. -/
def keyMeasure {α : Type} (nodes : List (String × α))
    (visited : List String) : Nat :=
  ((nodes.map Prod.fst).toFinset \ visited.toFinset).card

theorem findA_mem_keys {α : Type} {l : List (String × α)} {k : String}
    {v : α} (h : findA l k = some v) : k ∈ l.map Prod.fst := by
  induction l with
  | nil => simp [findA] at h
  | cons p rest ih =>
    obtain ⟨k2, v2⟩ := p
    by_cases hk : k2 = k
    · subst hk; simp
    · simp only [findA, if_neg hk] at h
      simpa using Or.inr (ih h)

theorem keyMeasure_mono {α : Type} (nodes : List (String × α))
    {v w : List String} (h : v ⊆ w) :
    keyMeasure nodes w ≤ keyMeasure nodes v := by
  apply Finset.card_le_card
  intro x hx
  rw [Finset.mem_sdiff] at hx ⊢
  refine ⟨hx.1, fun hxv => hx.2 ?_⟩
  rw [List.mem_toFinset] at hxv ⊢
  exact h hxv

theorem keyMeasure_lt {α : Type} {nodes : List (String × α)}
    {nid : String} {n : α} {v : List String}
    (hfind : findA nodes nid = some n) (hv : nid ∉ v) :
    keyMeasure nodes (v ++ [nid]) < keyMeasure nodes v := by
  apply Finset.card_lt_card
  constructor
  · intro x hx
    rw [Finset.mem_sdiff] at hx ⊢
    refine ⟨hx.1, fun hxv => hx.2 ?_⟩
    rw [List.mem_toFinset] at hxv ⊢
    simpa using Or.inl hxv
  · intro hcon
    have hmem : nid ∈ (nodes.map Prod.fst).toFinset \ v.toFinset := by
      rw [Finset.mem_sdiff, List.mem_toFinset, List.mem_toFinset]
      exact ⟨findA_mem_keys hfind, hv⟩
    have := hcon hmem
    rw [Finset.mem_sdiff, List.mem_toFinset] at this
    simp at this

theorem keyMeasure_nil_le {α : Type} (nodes : List (String × α)) :
    keyMeasure nodes [] ≤ nodes.length := by
  unfold keyMeasure
  calc ((nodes.map Prod.fst).toFinset \ ([] : List String).toFinset).card
      ≤ (nodes.map Prod.fst).toFinset.card :=
        Finset.card_le_card (Finset.sdiff_subset)
    _ ≤ (nodes.map Prod.fst).length := List.toFinset_card_le _
    _ = nodes.length := List.length_map _ _

/-- The traversal only ever appends to the visited set. -/
theorem findReachableAux_append (nodes : List (String × DialogueNode)) :
    ∀ (fuel : Nat) (nid : String) (v : List String),
      ∃ tl, findReachableAux nodes fuel nid v = v ++ tl := by
  intro fuel
  induction fuel with
  | zero => exact fun nid v => ⟨[], by simp [findReachableAux]⟩
  | succ f ih =>
    intro nid v
    by_cases hg : nid = "" ∨ nid ∈ v
    · exact ⟨[], by simp [findReachableAux, hg]⟩
    · rcases hfind : findA nodes nid with _ | n
      · exact ⟨[], by simp [findReachableAux, hg, hfind]⟩
      · have fold_append : ∀ (l : List String) (acc : List String),
            ∃ tl, l.foldl (fun a s => findReachableAux nodes f s a) acc
              = acc ++ tl := by
          intro l
          induction l with
          | nil => exact fun acc => ⟨[], by simp⟩
          | cons s rest ihl =>
            intro acc
            obtain ⟨t1, ht1⟩ := ih s acc
            obtain ⟨t2, ht2⟩ := ihl (findReachableAux nodes f s acc)
            rw [ht1] at ht2
            exact ⟨t1 ++ t2, by
              simp only [List.foldl_cons, ht1, ht2, List.append_assoc]⟩
        obtain ⟨tl, htl⟩ := fold_append (nodeSuccessors n) (v ++ [nid])
        refine ⟨[nid] ++ tl, ?_⟩
        simp only [findReachableAux, hg, if_false, hfind, htl,
          List.append_assoc]

theorem findReachableAux_subset (nodes : List (String × DialogueNode))
    (fuel : Nat) (nid : String) (v : List String) :
    v ⊆ findReachableAux nodes fuel nid v := by
  obtain ⟨tl, htl⟩ := findReachableAux_append nodes fuel nid v
  rw [htl]
  exact List.subset_append_left v tl

/-- Fuel stability: once the fuel exceeds the number of unvisited node
keys, one more unit of fuel never changes the traversal result.  This is
the termination argument of the recursive source function. -/
theorem findReachableAux_stable (nodes : List (String × DialogueNode)) :
    ∀ (fuel : Nat) (nid : String) (v : List String),
      keyMeasure nodes v < fuel →
      findReachableAux nodes (fuel + 1) nid v
        = findReachableAux nodes fuel nid v := by
  intro fuel
  induction fuel with
  | zero => exact fun nid v h => absurd h (Nat.not_lt_zero _)
  | succ f ih =>
    intro nid v hm
    by_cases hg : nid = "" ∨ nid ∈ v
    · simp [findReachableAux, hg]
    · rcases hfind : findA nodes nid with _ | n
      · simp [findReachableAux, hg, hfind]
      · have hnv : nid ∉ v := fun hc => hg (Or.inr hc)
        have hkey : keyMeasure nodes (v ++ [nid]) < f :=
          lt_of_lt_of_le (keyMeasure_lt hfind hnv) (Nat.lt_succ_iff.mp hm)
        have fold_congr : ∀ (l : List String) (acc : List String),
            keyMeasure nodes acc < f →
            l.foldl (fun a s => findReachableAux nodes (f + 1) s a) acc
              = l.foldl (fun a s => findReachableAux nodes f s a) acc := by
          intro l
          induction l with
          | nil => intro acc _; rfl
          | cons s rest ihl =>
            intro acc hacc
            simp only [List.foldl_cons, ih s acc hacc]
            apply ihl
            exact lt_of_le_of_lt
              (keyMeasure_mono nodes (findReachableAux_subset nodes f s acc))
              hacc
        simp only [findReachableAux, hg, if_false, hfind]
        exact fold_congr (nodeSuccessors n) (v ++ [nid]) hkey

/-- The visited set stays duplicate-free: every node is visited at most
once. -/
theorem findReachableAux_nodup (nodes : List (String × DialogueNode)) :
    ∀ (fuel : Nat) (nid : String) (v : List String),
      v.Nodup → (findReachableAux nodes fuel nid v).Nodup := by
  intro fuel
  induction fuel with
  | zero => intro nid v h; simpa [findReachableAux] using h
  | succ f ih =>
    intro nid v hv
    by_cases hg : nid = "" ∨ nid ∈ v
    · simpa [findReachableAux, hg] using hv
    · rcases hfind : findA nodes nid with _ | n
      · simpa [findReachableAux, hg, hfind] using hv
      · have hnv : nid ∉ v := fun hc => hg (Or.inr hc)
        have hv2 : (v ++ [nid]).Nodup := by
          simp [List.nodup_append, hv, hnv]
        have fold_nodup : ∀ (l : List String) (acc : List String),
            acc.Nodup →
            (l.foldl (fun a s => findReachableAux nodes f s a) acc).Nodup := by
          intro l
          induction l with
          | nil => exact fun acc h => h
          | cons s rest ihl =>
            intro acc hacc
            exact ihl _ (ih s acc hacc)
        simp only [findReachableAux, hg, if_false, hfind]
        exact fold_nodup (nodeSuccessors n) (v ++ [nid]) hv2

theorem labelsOf_append (l1 l2 : List DialogicEvent) :
    labelsOf (l1 ++ l2) = labelsOf l1 ++ labelsOf l2 := by
  simp [labelsOf]

theorem labelsOf_of_no_label {l : List DialogicEvent}
    (h : ∀ s, DialogicEvent.label s ∉ l) : labelsOf l = [] := by
  induction l with
  | nil => rfl
  | cons e rest ih =>
    have hrest : ∀ s, DialogicEvent.label s ∉ rest := fun s hs =>
      h s (List.mem_cons_of_mem _ hs)
    cases e with
    | label s => exact absurd (List.mem_cons_self _ _) (h s)
    | _ => simp [labelsOf] at ih ⊢; exact ih hrest

theorem labelsOf_single_label (s : String) :
    labelsOf [DialogicEvent.label s] = [s] := rfl

/-- One-step unfolding of the chain traversal at positive fuel. -/
theorem processNodeChain_succ (nodes : List (String × NodeData))
    (fuel : Nat) (nid : String) (events : List DialogicEvent)
    (visited : List String) :
    processNodeChain nodes (fuel + 1) nid events visited
      = if nid ∈ visited ∨ ¬ containsA nodes nid then (events, visited)
        else match findA nodes nid with
          | none => (events, visited)
          | some node =>
            if ¬ endTruthy node ∧ node.next.isSome then
              processNodeChain nodes fuel (node.next.getD "")
                (events ++ [DialogicEvent.label nid]
                  ++ processNodeContent node)
                (visited ++ [nid])
            else (events ++ [DialogicEvent.label nid]
                  ++ processNodeContent node, visited ++ [nid]) := rfl

/-- The chain traversal appends to both components, and the labels of
the newly emitted events are exactly the newly visited node ids, in
order. -/
theorem processNodeChain_shape (nodes : List (String × NodeData)) :
    ∀ (fuel : Nat) (nid : String) (events : List DialogicEvent)
      (visited : List String),
      ∃ newEvents tl,
        processNodeChain nodes fuel nid events visited
          = (events ++ newEvents, visited ++ tl) ∧
        labelsOf newEvents = tl := by
  intro fuel
  induction fuel with
  | zero => exact fun nid events visited => ⟨[], [], by
      simp [processNodeChain], rfl⟩
  | succ f ih =>
    intro nid events visited
    by_cases hg : nid ∈ visited ∨ ¬ containsA nodes nid
    · refine ⟨[], [], ?_, rfl⟩
      simp only [processNodeChain]
      rw [if_pos hg]
      simp
    · rcases hfind : findA nodes nid with _ | n
      · exact absurd (Or.inr (by simp [containsA, hfind])) hg
      · have hcontent : labelsOf (processNodeContent n) = [] :=
          labelsOf_of_no_label (fun s => label_not_mem_content n s)
        by_cases hfollow : ¬ endTruthy n ∧ n.next.isSome
        · obtain ⟨ne2, tl2, heq, hlab⟩ := ih (n.next.getD "")
            (events ++ [DialogicEvent.label nid] ++ processNodeContent n)
            (visited ++ [nid])
          refine ⟨[DialogicEvent.label nid] ++ (processNodeContent n ++ ne2),
            [nid] ++ tl2, ?_, ?_⟩
          · simp only [processNodeChain, hg, if_false, hfind]
            simp only [hfollow, if_true, heq]
            simp [List.append_assoc]
          · rw [labelsOf_append, labelsOf_append, labelsOf_single_label,
              hcontent, hlab]
            simp
        · refine ⟨[DialogicEvent.label nid] ++ processNodeContent n,
            [nid], ?_, ?_⟩
          · simp only [processNodeChain, hg, if_false, hfind]
            simp only [hfollow, if_false]
            simp [List.append_assoc]
          · rw [labelsOf_append, labelsOf_single_label, hcontent]
            simp

/-- Fuel stability of the chain traversal: beyond the unvisited-key
measure, extra fuel never changes the result. -/
theorem processNodeChain_stable (nodes : List (String × NodeData)) :
    ∀ (fuel : Nat) (nid : String) (events : List DialogicEvent)
      (visited : List String),
      keyMeasure nodes visited < fuel →
      processNodeChain nodes (fuel + 1) nid events visited
        = processNodeChain nodes fuel nid events visited := by
  intro fuel
  induction fuel with
  | zero => exact fun nid events visited h => absurd h (Nat.not_lt_zero _)
  | succ f ih =>
    intro nid events visited hm
    rw [processNodeChain_succ, processNodeChain_succ]
    by_cases hg : nid ∈ visited ∨ ¬ containsA nodes nid
    · rw [if_pos hg, if_pos hg]
    · rw [if_neg hg, if_neg hg]
      rcases hfind : findA nodes nid with _ | n
      · rfl
      · have hnv : nid ∉ visited := fun hc => hg (Or.inl hc)
        have hkey : keyMeasure nodes (visited ++ [nid]) < f :=
          lt_of_lt_of_le (keyMeasure_lt hfind hnv) (Nat.lt_succ_iff.mp hm)
        dsimp only
        by_cases hfollow : ¬ endTruthy n ∧ n.next.isSome
        · rw [if_pos hfollow, if_pos hfollow]
          exact ih (n.next.getD "") _ _ hkey
        · rw [if_neg hfollow, if_neg hfollow]

/-- The visited list of the chain stays duplicate-free. -/
theorem processNodeChain_nodup (nodes : List (String × NodeData)) :
    ∀ (fuel : Nat) (nid : String) (events : List DialogicEvent)
      (visited : List String),
      visited.Nodup → (processNodeChain nodes fuel nid events visited).2.Nodup := by
  intro fuel
  induction fuel with
  | zero => intro nid events visited h; simpa [processNodeChain] using h
  | succ f ih =>
    intro nid events visited hv
    rw [processNodeChain_succ]
    by_cases hg : nid ∈ visited ∨ ¬ containsA nodes nid
    · rw [if_pos hg]
      exact hv
    · rw [if_neg hg]
      rcases hfind : findA nodes nid with _ | n
      · exact hv
      · have hnv : nid ∉ visited := fun hc => hg (Or.inl hc)
        have hv2 : (visited ++ [nid]).Nodup := by
          simp [List.nodup_append, hv, hnv]
        dsimp only
        by_cases hfollow : ¬ endTruthy n ∧ n.next.isSome
        · rw [if_pos hfollow]
          exact ih (n.next.getD "") _ _ hv2
        · rw [if_neg hfollow]
          exact hv2

/-- The dialogue of the cycle test: start a, a.next = b, b.next = a. -/
def cycleDialogue : Dialogue :=
  { id := "cyc", title := "cyc", start := "a",
    nodes := [("a", { id := "a", type := .SAY, text := "ta", next := "b" }),
              ("b", { id := "b", type := .SAY, text := "tb", next := "a" })] }

/-- The raw document of the same cycle, as fed to the converter. -/
def cycleDoc : Doc :=
  { id := some "cyc", start := some "a",
    nodes := some [("a", { say := some (.str "ta"), next := some "b" }),
                   ("b", { say := some (.str "tb"), next := some "a" })] }

/-- Claim C6: for every dialogue, cyclic or not, both the validator
reachability traversal and timeline generation terminate (the result at
the source fuel bound is already the fixpoint: any extra fuel yields the
same result) and visit each node at most once (the visited set and the
emitted label sequence are duplicate-free); and on the concrete two-node
cycle both visit a and b exactly once. -/
theorem traversals_terminate_and_visit_once :
    (∀ (d : Dialogue) (extra : Nat),
      findReachableAux d.nodes (d.nodes.length + 1 + extra) d.start []
        = d.findReachable) ∧
    (∀ d : Dialogue, d.findReachable.Nodup) ∧
    (∀ (nodes : List (String × NodeData)) (start : String) (extra : Nat),
      processNodeChain nodes (nodes.length + 1 + extra) start [] []
        = processNodeChain nodes (nodes.length + 1) start [] []) ∧
    (∀ (doc : Doc) (source_file : String),
      (labelsOf (convert doc source_file).events).Nodup) ∧
    cycleDialogue.findReachable = ["a", "b"] ∧
    labelsOf (convert cycleDoc "cycle.yaml").events = ["a", "b"] := by
  have hfr : ∀ (d : Dialogue) (extra : Nat),
      findReachableAux d.nodes (d.nodes.length + 1 + extra) d.start []
        = d.findReachable := by
    intro d extra
    induction extra with
    | zero => rfl
    | succ e ihe =>
      have hb : keyMeasure d.nodes [] < d.nodes.length + 1 + e :=
        lt_of_le_of_lt (keyMeasure_nil_le d.nodes) (by omega)
      calc findReachableAux d.nodes (d.nodes.length + 1 + (e + 1)) d.start []
          = findReachableAux d.nodes ((d.nodes.length + 1 + e) + 1) d.start []
            := by ring_nf
        _ = findReachableAux d.nodes (d.nodes.length + 1 + e) d.start [] :=
            findReachableAux_stable d.nodes _ d.start [] hb
        _ = d.findReachable := ihe
  have hchain : ∀ (nodes : List (String × NodeData)) (start : String)
      (extra : Nat),
      processNodeChain nodes (nodes.length + 1 + extra) start [] []
        = processNodeChain nodes (nodes.length + 1) start [] [] := by
    intro nodes start extra
    induction extra with
    | zero => rfl
    | succ e ihe =>
      have hb : keyMeasure nodes [] < nodes.length + 1 + e :=
        lt_of_le_of_lt (keyMeasure_nil_le nodes) (by omega)
      calc processNodeChain nodes (nodes.length + 1 + (e + 1)) start [] []
          = processNodeChain nodes ((nodes.length + 1 + e) + 1) start [] []
            := by ring_nf
        _ = processNodeChain nodes (nodes.length + 1 + e) start [] [] :=
            processNodeChain_stable nodes _ start [] [] hb
        _ = processNodeChain nodes (nodes.length + 1) start [] [] := ihe
  refine ⟨hfr, ?_, hchain, ?_, by decide, by decide⟩
  · intro d
    exact findReachableAux_nodup d.nodes _ d.start [] List.nodup_nil
  · intro doc source_file
    have hshape := processNodeChain_shape (doc.nodes.getD [])
      ((doc.nodes.getD []).length + 1) (doc.start.getD "") [] []
    obtain ⟨newEvents, tl, heq, hlab⟩ := hshape
    have hnodup : (processNodeChain (doc.nodes.getD [])
        ((doc.nodes.getD []).length + 1) (doc.start.getD "") [] []).2.Nodup :=
      processNodeChain_nodup _ _ _ _ _ List.nodup_nil
    have hev : (convert doc source_file).events
        = (processNodeChain (doc.nodes.getD [])
            ((doc.nodes.getD []).length + 1) (doc.start.getD "") [] []).1 := by
      rfl
    rw [hev, heq]
    rw [heq] at hnodup
    simpa [hlab] using hnodup

/-! ## Claim C8: determinism of the lowering -/

/-- Dict lookup is invariant under reordering of a duplicate-free-keyed
association list. -/
theorem findA_perm {α : Type} :
    ∀ {l₁ l₂ : List (String × α)}, l₁.Perm l₂ →
      (l₁.map Prod.fst).Nodup → ∀ k, findA l₁ k = findA l₂ k := by
  intro l₁ l₂ hp
  induction hp with
  | nil => intro _ k; rfl
  | cons x _ ih =>
    intro hnd k
    obtain ⟨xk, xv⟩ := x
    simp only [List.map_cons, List.nodup_cons] at hnd
    by_cases hk : xk = k
    · simp [findA, hk]
    · simp only [findA, if_neg hk]
      exact ih hnd.2 k
  | swap x y l =>
    intro hnd k
    obtain ⟨xk, xv⟩ := x
    obtain ⟨yk, yv⟩ := y
    simp only [List.map_cons, List.nodup_cons, List.mem_cons] at hnd
    have hxy : yk ≠ xk := fun h => hnd.1 (Or.inl h)
    by_cases hx : xk = k <;> by_cases hy : yk = k
    · exact absurd (hy.trans hx.symm) hxy
    · simp [findA, hx, hy]
    · simp [findA, hx, hy]
    · simp [findA, hx, hy]
  | trans h₁ _ ih₁ ih₂ =>
    intro hnd k
    rw [ih₁ hnd k, ih₂ (((h₁.map Prod.fst).nodup_iff).mp hnd) k]

/-- The chain traversal depends on the node mapping only through
lookup. -/
theorem processNodeChain_ext {n1 n2 : List (String × NodeData)}
    (hfind : ∀ k, findA n1 k = findA n2 k) :
    ∀ (fuel : Nat) (nid : String) (events : List DialogicEvent)
      (visited : List String),
      processNodeChain n1 fuel nid events visited
        = processNodeChain n2 fuel nid events visited := by
  intro fuel
  induction fuel with
  | zero => intro nid events visited; rfl
  | succ f ih =>
    intro nid events visited
    rw [processNodeChain_succ, processNodeChain_succ]
    have hc : containsA n1 nid = containsA n2 nid := by
      simp [containsA, hfind nid]
    rw [hc, hfind nid]
    by_cases hg : nid ∈ visited ∨ ¬ containsA n2 nid
    · rw [if_pos hg, if_pos hg]
    · rw [if_neg hg, if_neg hg]
      rcases hf2 : findA n2 nid with _ | n
      · rfl
      · dsimp only
        by_cases hfollow : ¬ endTruthy n ∧ n.next.isSome
        · rw [if_pos hfollow, if_pos hfollow]
          exact ih (n.next.getD "") _ _
        · rw [if_neg hfollow, if_neg hfollow]

/-- Claim C8: timeline lowering is deterministic.  Converting the same
document twice gives equal results because convert is a function of the
document value alone; more strongly, the output does not even depend on
the storage order of the node mapping: two documents equal except for a
permutation of their (duplicate-free) node entries convert to the same
timeline, events compared by list equality. -/
theorem convert_deterministic (doc1 doc2 : Doc) (source_file : String)
    (hid : doc1.id = doc2.id) (htitle : doc1.title = doc2.title)
    (hstart : doc1.start = doc2.start)
    (hperm : (doc1.nodes.getD []).Perm (doc2.nodes.getD []))
    (hnd : ((doc1.nodes.getD []).map Prod.fst).Nodup) :
    convert doc1 source_file = convert doc2 source_file := by
  have hlen := hperm.length_eq
  have hfind := findA_perm hperm hnd
  have he : processNodeChain (doc1.nodes.getD [])
      ((doc1.nodes.getD []).length + 1) (doc1.start.getD "") [] []
      = processNodeChain (doc2.nodes.getD [])
        ((doc2.nodes.getD []).length + 1) (doc2.start.getD "") [] [] := by
    rw [hlen, hstart]
    exact processNodeChain_ext hfind _ _ _ _
  unfold convert
  dsimp only
  rw [he, hid, htitle]

/-- The two-node document in one storage order. -/
def c8DocA : Doc :=
  { id := some "d", start := some "a",
    nodes := some [("a", { say := some (.str "ta"), next := some "b" }),
                   ("b", { endV := some (.b true) })] }

/-- The same document with the node entries stored in the other order. -/
def c8DocB : Doc :=
  { id := some "d", start := some "a",
    nodes := some [("b", { endV := some (.b true) }),
                   ("a", { say := some (.str "ta"), next := some "b" })] }

/-- Witness for convert_deterministic: the two concrete storage orders
convert to the same timeline. -/
theorem convert_deterministic_witness :
    convert c8DocA "w.yaml" = convert c8DocB "w.yaml" :=
  convert_deterministic c8DocA c8DocB "w.yaml" rfl rfl rfl
    (by decide) (by decide)

/-! ## Claim C1: the round-trip law

WFDoc captures the well-formedness the spec silently assumes of a
source document, in the vocabulary of the spec data model: nonempty
identifiers, duplicate-free mapping keys, exactly one variant key per
node (an end key standing alone), no next key on branching or terminal
variants (a Choice node has no next field per the spec), truthiness-safe
optional payloads (no empty-string choice condition or character
color), and UI positions representable at one decimal digit, which is
what survives the saver's round(x, 1).  The counterexample below shows
the last condition is necessary: a position of 1.25 is well-formed by
every other measure yet breaks the stated byte-for-byte law. -/

/-- The color field of a character record, when spelled as a mapping. -/
def charColorOf : CharData → Option String
  | .str _ => none
  | .obj _ _ color _ => color

/-- Well-formed character entry: a color, when present, is not the
empty string (a falsy color is silently replaced by the default on a
round trip). -/
def WFCharData (cd : CharData) : Prop := charColorOf cd ≠ some ""

/-- Well-formed node record, see the section comment. -/
def WFNodeData (data : NodeData) : Prop :=
  (data.endV = none ∨
    (data.say = none ∧ data.choice = none ∧ data.set = none ∧
     data.if_ = none ∧ data.jump = none ∧ data.signal = none)) ∧
  (specVariant data ∉ [NodeType.CHOICE, .IF, .JUMP, .END] ∨
    data.next = none ∨ data.next = some "") ∧
  (∀ c ∈ data.choice.getD [], c.if_ ≠ some "") ∧
  round1 ((data.ui.getD {}).x.getD 0) = (data.ui.getD {}).x.getD 0 ∧
  round1 ((data.ui.getD {}).y.getD 0) = (data.ui.getD {}).y.getD 0

/-- Well-formed document, see the section comment. -/
def WFDoc (doc : Doc) : Prop :=
  doc.id ≠ none ∧ doc.id ≠ some "" ∧
  ((doc.characters.getD []).map Prod.fst).Nodup ∧
  (∀ p ∈ doc.characters.getD [], p.1 ≠ "" ∧ WFCharData p.2) ∧
  ((doc.nodes.getD []).map Prod.fst).Nodup ∧
  (∀ p ∈ doc.nodes.getD [], p.1 ≠ "" ∧ WFNodeData p.2)

/-- Round trip of one choice option: parse, serialize, parse is parse,
provided the condition is not the (falsy, hence dropped) empty string. -/
theorem choice_roundtrip (c : ChoiceData) (h : c.if_ ≠ some "") :
    parseChoice (choiceToDict (parseChoice c)) = parseChoice c := by
  unfold parseChoice choiceToDict
  rcases hif : c.if_ with _ | s
  · simp
  · have hs : s ≠ "" := fun he => h (by rw [hif, he])
    simp [hs]

theorem optRT_str (s : String) :
    ((if s ≠ "" then some s else none) : Option String).getD "" = s := by
  by_cases h : s = "" <;> simp [h]

theorem optRT_list (l : List String) :
    ((if l ≠ [] then some l else none) : Option (List String)).getD [] = l := by
  by_cases h : l = [] <;> simp [h]

theorem optRT_color (c : String) (h : c ≠ "") :
    ((if c ≠ "" ∧ c ≠ "#ffffff" then some c else none) :
      Option String).getD "#ffffff" = c := by
  by_cases hw : c = "#ffffff" <;> simp [h, hw]

/-- Round trip of one character entry under a nonempty key and a
non-falsy color. -/
theorem char_roundtrip (key : String) (cd : CharData) (hkey : key ≠ "")
    (h : WFCharData cd) :
    parseCharacter key (charToDict (parseCharacter key cd))
      = parseCharacter key cd := by
  rcases cd with v | ⟨name, portrait, color, tags⟩
  · unfold parseCharacter charToDict
    by_cases hv : v = "" <;> simp [hv, hkey]
  · have hcolor : color ≠ some "" := h
    have hC : color.getD "#ffffff" ≠ "" := by
      rcases color with _ | c
      · simp
      · simpa using fun he => hcolor (by rw [he])
    have hN : (if name.getD key = "" then key else name.getD key) ≠ "" := by
      by_cases hn : name.getD key = "" <;> simp [hn, hkey]
    unfold parseCharacter charToDict
    dsimp only
    simp only [Option.getD_some, if_neg hN, optRT_str,
      optRT_color _ hC, optRT_list]

/-- Round trip of one node record under WFNodeData. -/
theorem node_roundtrip (key : String) (data : NodeData)
    (h : WFNodeData data) :
    parseNode key (nodeToDict (parseNode key data)) = parseNode key data := by
  obtain ⟨say, choice, set, if_, then_, else_, jump, signal, endV, next, ui⟩ :=
    data
  obtain ⟨hend, hnext, hopts, hux, huy⟩ := h
  dsimp only at hend hnext hopts hux huy
  rcases endV with _ | v
  · rcases say with _ | sf
    · rcases choice with _ | opts
      · rcases set with _ | kvs
        · rcases if_ with _ | cond
          · rcases jump with _ | j
            · rcases signal with _ | gf
              · -- no variant key at all: default SAY
                rcases next with _ | nx
                · rcases ui with _ | u <;>
                    simp_all [parseNode, parseNodeProbe, parseNodeEnd,
                      parseNodeCommon, nodeToDict]
                · by_cases hnx : nx = "" <;>
                    rcases ui with _ | u <;>
                      simp_all [parseNode, parseNodeProbe, parseNodeEnd,
                        parseNodeCommon, nodeToDict]
              · -- signal node
                rcases gf with v | ⟨nm, args⟩
                · rcases next with _ | nx
                  · rcases ui with _ | u <;>
                      simp_all [parseNode, parseNodeProbe, parseNodeEnd,
                        parseNodeCommon, nodeToDict]
                  · by_cases hnx : nx = "" <;>
                      rcases ui with _ | u <;>
                        simp_all [parseNode, parseNodeProbe, parseNodeEnd,
                          parseNodeCommon, nodeToDict]
                · rcases next with _ | nx
                  · by_cases ha : args.getD [] = [] <;>
                      rcases ui with _ | u <;>
                        simp_all [parseNode, parseNodeProbe, parseNodeEnd,
                          parseNodeCommon, nodeToDict]
                  · by_cases hnx : nx = "" <;>
                      by_cases ha : args.getD [] = [] <;>
                        rcases ui with _ | u <;>
                          simp_all [parseNode, parseNodeProbe, parseNodeEnd,
                            parseNodeCommon, nodeToDict]
            · -- jump node: next restricted by well-formedness
              simp only [specVariant] at hnext
              simp only [Option.isSome_none, Option.isSome_some] at hnext
              rcases hnext with habs | hnn | hns
              · simp at habs
              · subst hnn
                rcases ui with _ | u <;>
                  by_cases hj : j = "" <;>
                    simp_all [parseNode, parseNodeProbe, parseNodeEnd,
                      parseNodeCommon, nodeToDict]
              · subst hns
                rcases ui with _ | u <;>
                  by_cases hj : j = "" <;>
                    simp_all [parseNode, parseNodeProbe, parseNodeEnd,
                      parseNodeCommon, nodeToDict]
          · -- if node
            simp only [specVariant] at hnext
            simp only [Option.isSome_none, Option.isSome_some] at hnext
            rcases hnext with habs | hnn | hns
            · simp at habs
            · subst hnn
              rcases ui with _ | u <;>
                by_cases h1 : then_.getD "" = "" <;>
                  by_cases h2 : else_.getD "" = "" <;>
                    simp_all [parseNode, parseNodeProbe, parseNodeEnd,
                      parseNodeCommon, nodeToDict]
            · subst hns
              rcases ui with _ | u <;>
                by_cases h1 : then_.getD "" = "" <;>
                  by_cases h2 : else_.getD "" = "" <;>
                    simp_all [parseNode, parseNodeProbe, parseNodeEnd,
                      parseNodeCommon, nodeToDict]
        · -- set node
          rcases next with _ | nx
          · rcases ui with _ | u <;>
              simp_all [parseNode, parseNodeProbe, parseNodeEnd,
                parseNodeCommon, nodeToDict]
          · by_cases hnx : nx = "" <;>
              rcases ui with _ | u <;>
                simp_all [parseNode, parseNodeProbe, parseNodeEnd,
                  parseNodeCommon, nodeToDict]
      · -- choice node
        have hch : ((opts.map parseChoice).map choiceToDict).map parseChoice
            = opts.map parseChoice := by
          rw [List.map_map, List.map_map]
          refine List.map_congr_left fun c hc => ?_
          have := choice_roundtrip c (hopts c hc)
          simpa [Function.comp] using this
        simp only [specVariant] at hnext
        simp only [Option.isSome_none, Option.isSome_some] at hnext
        rcases hnext with habs | hnn | hns
        · simp at habs
        · subst hnn
          rcases ui with _ | u <;>
            simp_all [parseNode, parseNodeProbe, parseNodeEnd,
              parseNodeCommon, nodeToDict]
        · subst hns
          rcases ui with _ | u <;>
            simp_all [parseNode, parseNodeProbe, parseNodeEnd,
              parseNodeCommon, nodeToDict]
    · -- say node
      rcases sf with v | ⟨sp, tx⟩
      · rcases next with _ | nx
        · rcases ui with _ | u <;>
            simp_all [parseNode, parseNodeProbe, parseNodeEnd,
              parseNodeCommon, nodeToDict]
        · by_cases hnx : nx = "" <;>
            rcases ui with _ | u <;>
              simp_all [parseNode, parseNodeProbe, parseNodeEnd,
                parseNodeCommon, nodeToDict]
      · rcases next with _ | nx
        · rcases ui with _ | u <;>
            simp_all [parseNode, parseNodeProbe, parseNodeEnd,
              parseNodeCommon, nodeToDict]
        · by_cases hnx : nx = "" <;>
            rcases ui with _ | u <;>
              simp_all [parseNode, parseNodeProbe, parseNodeEnd,
                parseNodeCommon, nodeToDict]
  · -- end node: every probe key is absent by well-formedness
    rcases hend with habs | ⟨h1, h2, h3, h4, h5, h6⟩
    · simp at habs
    · subst h1; subst h2; subst h3; subst h4; subst h5; subst h6
      simp only [specVariant] at hnext
      simp only [Option.isSome_none, Option.isSome_some] at hnext
      rcases hnext with habs | hnn | hns
      · simp at habs
      · subst hnn
        rcases ui with _ | u <;>
          by_cases hv : pyIsTrue v = true <;>
            by_cases ho : pyStr v = "" <;>
              simp_all [parseNode, parseNodeProbe, parseNodeEnd,
                parseNodeCommon, nodeToDict, pyIsTrue, pyStr]
      · subst hns
        rcases ui with _ | u <;>
          by_cases hv : pyIsTrue v = true <;>
            by_cases ho : pyStr v = "" <;>
              simp_all [parseNode, parseNodeProbe, parseNodeEnd,
                parseNodeCommon, nodeToDict, pyIsTrue, pyStr]

theorem dialogueExtEq {a b : Dialogue} (h1 : a.id = b.id)
    (h2 : a.title = b.title) (h3 : a.start = b.start)
    (h4 : a.characters = b.characters) (h5 : a.nodes = b.nodes)
    (h6 : a.tags = b.tags) (h7 : a.is_modified = b.is_modified) :
    a = b := by
  cases a; cases b
  dsimp at h1 h2 h3 h4 h5 h6 h7
  subst h1; subst h2; subst h3; subst h4; subst h5; subst h6; subst h7
  rfl

/-- Parsing resolves the node mapping to an entrywise parse when the
document keys are duplicate-free. -/
theorem parseDialogue_nodes (doc : Doc)
    (hnd : ((doc.nodes.getD []).map Prod.fst).Nodup) :
    (parseDialogue doc).nodes
      = (doc.nodes.getD []).map (fun p => (p.1, parseNode p.1 p.2)) := by
  show (doc.nodes.getD []).foldl
      (fun acc p => insertA acc p.1 (parseNode p.1 p.2)) []
    = (doc.nodes.getD []).map (fun p => (p.1, parseNode p.1 p.2))
  rw [foldl_insertA_eq_append parseNode _ [] hnd (fun p _ => rfl)]
  simp

/-- Parsing resolves the character mapping to an entrywise parse when
the document keys are duplicate-free. -/
theorem parseDialogue_characters (doc : Doc)
    (hnd : ((doc.characters.getD []).map Prod.fst).Nodup) :
    (parseDialogue doc).characters
      = (doc.characters.getD []).map
          (fun p => (p.1, parseCharacter p.1 p.2)) := by
  show (doc.characters.getD []).foldl
      (fun acc p => insertA acc p.1 (parseCharacter p.1 p.2)) []
    = (doc.characters.getD []).map (fun p => (p.1, parseCharacter p.1 p.2))
  rw [foldl_insertA_eq_append parseCharacter _ [] hnd (fun p _ => rfl)]
  simp

/-- Claim C1 (amended): the round-trip law holds for every well-formed
document (WFDoc), whose conditions include UI positions already at one
decimal digit; positions are then preserved exactly, rather than
byte-for-byte for arbitrary positions, since the saver rounds each
coordinate with round(x, 1). -/
theorem parse_serialize_parse_roundtrip (doc : Doc) (h : WFDoc doc) :
    parseDialogue (dialogueToDict (parseDialogue doc)) = parseDialogue doc := by
  obtain ⟨hidn, hids, hcnd, hcwf, hnnd, hnwf⟩ := h
  have hdid : doc.id.getD "" ≠ "" := by
    rcases hido : doc.id with _ | s
    · exact absurd hido hidn
    · simpa using fun he => hids (by rw [hido, he])
  have hnodes1 := parseDialogue_nodes doc hnnd
  have hchars1 := parseDialogue_characters doc hcnd
  -- the serialized document
  set d := parseDialogue doc with hd
  have hser : dialogueToDict d =
      { id := some d.id
        title := if d.title ≠ "" ∧ d.title ≠ d.id then some d.title else none
        tags := if d.tags ≠ [] then some d.tags else none
        characters := if d.characters ≠ [] then
          some (d.characters.map fun p => (p.1, charToDict p.2)) else none
        start := some d.start
        nodes := some (d.nodes.map fun p => (p.1, nodeToDict p.2)) } := rfl
  apply dialogueExtEq
  · -- id
    show (dialogueToDict d).id.getD "" = doc.id.getD ""
    rw [hser]
    rfl
  · -- title
    show (if (dialogueToDict d).title.getD "" = ""
          then (dialogueToDict d).id.getD ""
          else (dialogueToDict d).title.getD "")
        = d.title
    rw [hser]
    dsimp only
    have htd : d.title = if doc.title.getD "" = "" then doc.id.getD ""
        else doc.title.getD "" := rfl
    by_cases h1 : d.title = ""
    · exfalso
      rw [htd] at h1
      by_cases h2 : doc.title.getD "" = ""
      · simp [h2] at h1
        exact hdid h1
      · simp [h2] at h1
    · by_cases h3 : d.title = d.id
      · simp only [h1, h3, ne_eq, not_true_eq_false, and_false, if_false]
        simp [h3]
      · simp only [ne_eq, h1, not_false_eq_true, h3, and_true, if_true]
        simp [h1]
  · -- start
    show (dialogueToDict d).start.getD "" = doc.start.getD ""
    rw [hser]
    rfl
  · -- characters
    show (parseDialogue (dialogueToDict d)).characters = d.characters
    by_cases hce : d.characters = []
    · have : (dialogueToDict d).characters = none := by
        rw [hser]; simp [hce]
      rw [parseDialogue_characters _ (by rw [this]; simp)]
      rw [this, hce]
      rfl
    · have hcs : (dialogueToDict d).characters
          = some (d.characters.map fun p => (p.1, charToDict p.2)) := by
        rw [hser]; simp [hce]
      have hkeys : (((dialogueToDict d).characters.getD []).map Prod.fst).Nodup := by
        rw [hcs]
        simpa [List.map_map, Function.comp, hchars1] using hcnd
      rw [parseDialogue_characters _ hkeys, hcs]
      simp only [Option.getD_some, hchars1, List.map_map]
      refine List.map_congr_left fun p hp => ?_
      have hwf := hcwf p hp
      have := char_roundtrip p.1 p.2 hwf.1 hwf.2
      simp [Function.comp, this]
  · -- nodes
    show (parseDialogue (dialogueToDict d)).nodes = d.nodes
    have hns : (dialogueToDict d).nodes
        = some (d.nodes.map fun p => (p.1, nodeToDict p.2)) := by
      rw [hser]
    have hkeys : (((dialogueToDict d).nodes.getD []).map Prod.fst).Nodup := by
      rw [hns]
      simpa [List.map_map, Function.comp, hnodes1] using hnnd
    rw [parseDialogue_nodes _ hkeys, hns]
    simp only [Option.getD_some, hnodes1, List.map_map]
    refine List.map_congr_left fun p hp => ?_
    have hwf := hnwf p hp
    have := node_roundtrip p.1 p.2 hwf.2
    simp [Function.comp, this]
  · -- tags
    show (dialogueToDict d).tags.getD [] = doc.tags.getD []
    rw [hser]
    dsimp only
    by_cases ht : d.tags = []
    · have htd : d.tags = doc.tags.getD [] := rfl
      rw [← htd, ht]
      simp
    · have htd : d.tags = doc.tags.getD [] := rfl
      rw [← htd]
      simp [ht]
  · -- is_modified
    rfl

/-- A one-node document whose only unusual feature is a UI x position of
1.25 (two decimal digits).  Everything else satisfies WFDoc. -/
def c1CexDoc : Doc :=
  { id := some "d", start := some "a",
    nodes := some [("a", { say := some (.str "hi")
                           ui := some { x := some (mkRat 5 4)
                                        y := some 0 } })] }

/-- Claim C1 as stated is false: on c1CexDoc the parse of the serialized
parse differs from the parse, because the saver rounds the stored x
position 1.25 to 1.2 (round(x, 1)), so the position pair is not
preserved byte-for-byte and the Dialogue values differ structurally. -/
theorem c1_counterexample :
    parseDialogue (dialogueToDict (parseDialogue c1CexDoc))
        ≠ parseDialogue c1CexDoc ∧
    (findA (parseDialogue c1CexDoc).nodes "a").map (fun n => n.ui_pos.x)
        = some (mkRat 5 4) ∧
    (findA (parseDialogue (dialogueToDict (parseDialogue c1CexDoc))).nodes
        "a").map (fun n => n.ui_pos.x) = some (mkRat 6 5) := by decide

/-- A well-formed document exercising every node variant, characters of
both spellings, and one-decimal UI positions. -/
def c1WfDoc : Doc :=
  { id := some "d", title := some "Title", start := some "a",
    tags := some ["t1"],
    characters := some
      [("al", .obj (some "Alice") (some "al.png") (some "#ff0000")
          (some ["hero"])),
       ("bo", .str "Bob")],
    nodes := some
      [("a", { say := some (.obj (some "al") (some "hi")), next := some "b"
               ui := some { x := some (mkRat 3 2), y := some 2 } }),
       ("b", { endV := some (.b true) }),
       ("c", { choice := some [{ text := some "opt", next := some "b"
                                 if_ := some "seen" },
                               { text := some "opt2" }] }),
       ("j", { jump := some "a" }),
       ("i", { if_ := some "x > 1", then_ := some "a", else_ := some "b" }),
       ("s", { set := some [("v", .i 3), ("w", .s "y")]
               next := some "b" }),
       ("g", { signal := some (.obj "boom" (some [("k", .s "v")])) }),
       ("e", { endV := some (.s "lost") })] }

/-- Witness: the amended round-trip theorem applied to the concrete
well-formed document c1WfDoc, its well-formedness checked by
evaluation. -/
theorem parse_serialize_parse_roundtrip_witness :
    parseDialogue (dialogueToDict (parseDialogue c1WfDoc))
      = parseDialogue c1WfDoc :=
  parse_serialize_parse_roundtrip c1WfDoc
    (by unfold WFDoc WFNodeData WFCharData charColorOf; decide)

end DlgSpec
